import Mathlib

/-!
Verification of the file-clerk repository's persistence and chunking core.

Strings from the JavaScript source are embedded as `List Char`; JS numbers
used as list indices and lengths are embedded as `Nat`.  `Math.ceil (a / b)`
on natural inputs is embedded as ceiling division `a ⌈/⌉ b`.
-/

/-- A chunk produced by `FileSplitter.splitFiles`: a zero-based `index`
together with the slice of the Data URL string for that position. -/
structure Chunk where
  index : Nat
  data : List Char
deriving DecidableEq, Repr

namespace FileSplitter

/-- The `CHUNK_SIZE` constant (14 KB) of the `FileSplitter` component. -/
def CHUNK_SIZE : Nat := 14000

/-- JS `String.prototype.slice(startIndex, endIndex)` for non-negative
indices: the characters from `startIndex` up to (exclusive) `endIndex`,
clamped to the string length. -/
def jsSlice (s : List Char) (startIndex endIndex : Nat) : List Char :=
  (s.drop startIndex).take (endIndex - startIndex)

/-- The loop of `FileSplitter.splitFiles`, with the chunk size as a
parameter `c` (the source fixes `c = CHUNK_SIZE`): `totalChunks` is
`Math.ceil(dataURL.length / c)`, and for each `i < totalChunks` the loop
pushes the chunk `{ index := i, data := dataURL.slice (i*c) ((i+1)*c) }`. -/
def splitFilesWith (c : Nat) (dataURL : List Char) : List Chunk :=
  (List.range (dataURL.length ⌈/⌉ c)).map
    (fun i => { index := i, data := jsSlice dataURL (i * c) ((i + 1) * c) })

/-- The source's `FileSplitter.splitFiles`: splitting at `CHUNK_SIZE`. -/
def splitFiles (dataURL : List Char) : List Chunk :=
  splitFilesWith CHUNK_SIZE dataURL

/-- The comparator `(a, b) => a.index - b.index` passed to
`Array.prototype.sort`, as the boolean order it induces. -/
def byIndex (a b : Chunk) : Bool :=
  decide (a.index ≤ b.index)

/-- The source's `FileSplitter.joinFiles`: it first sorts the chunks array
in place by `index` (`Array.prototype.sort` is stable, embedded as a stable
merge sort), then concatenates the `data` fields in that order.  The result
pairs the post-call state of the caller's array with the joined string,
making the in-place mutation of the argument observable. -/
def joinFiles (chunks : List Chunk) : List Chunk × List Char :=
  let sorted := chunks.mergeSort byIndex
  (sorted, sorted.foldl (fun data ch => data ++ ch.data) [])

end FileSplitter

/-- A stored file value as persisted by `FileClerk.saveFile`:
`{ filename, contents, metadata }`. -/
structure FileData where
  filename : List Char
  contents : List Char
  metadata : List Char
deriving DecidableEq, Repr

/-- An event dispatched by a component: the event name and its detail.  The
detail is `none` when the dispatched value is JS `null` (a failed storage
lookup). -/
structure FileEvent where
  name : String
  detail : Option FileData
deriving DecidableEq, Repr

/-- The error taxonomy of the spec's Store contract.  The FileClerk methods
are async JS functions whose promises either resolve or reject; `Except`
embeds that, a rejection being `Except.error`.  The embedded methods never
reject: the storage medium is modeled as available and unbounded. -/
inductive ClerkError where
  | notFound
  | storageFull
deriving DecidableEq, Repr

namespace FileClerk

/-- The localforage key-value medium, as an association list from ids to
stored values in insertion order. -/
abbrev Storage := List (String × FileData)

/-- localforage `getItem`: the value stored under `id`, or `none` (JS
`null`) when the key is absent.  localforage resolves — it does not
reject — on a missing key. -/
def getItem : Storage → String → Option FileData
  | [], _ => none
  | (k, v) :: rest, id => if k = id then some v else getItem rest id

/-- localforage `setItem`: overwrites the value under an existing key, or
appends a new entry. -/
def setItem : Storage → String → FileData → Storage
  | [], id, v => [(id, v)]
  | (k, w) :: rest, id, v =>
      if k = id then (id, v) :: rest else (k, w) :: setItem rest id v

/-- localforage `removeItem`: deletes the entry under `id`; resolves even
when the key is absent. -/
def removeItem : Storage → String → Storage
  | [], _ => []
  | (k, v) :: rest, id =>
      if k = id then removeItem rest id else (k, v) :: removeItem rest id

/-- localforage `keys`: the stored keys. -/
def keys (s : Storage) : List String := s.map Prod.fst

/-- The source's `FileClerk.saveFile`: stores `{ filename, contents,
metadata }` under a fresh id obtained from `crypto.randomUUID()`.  The
environment-supplied UUID is the `uuid` argument.  The JS function has no
return statement — its promise resolves to `undefined`, embedded as the
`Option String` component being `none` (it would be `some id` had the
source returned the generated id). -/
def saveFile (s : Storage) (uuid : String) (filename contents metadata : List Char) :
    Except ClerkError (Storage × Option String) :=
  .ok (setItem s uuid ⟨filename, contents, metadata⟩, none)

/-- The source's `FileClerk.deleteFile`: `localforage.removeItem(id)`, then
an optional UI re-render with no storage effect. -/
def deleteFile (s : Storage) (id : String) : Except ClerkError Storage :=
  .ok (removeItem s id)

/-- The source's `FileClerk.openFile`: looks `id` up in storage and
dispatches the `file-opened` event whose detail is the lookup result.
There is no failure path: an absent id dispatches a `none` detail. -/
def openFile (s : Storage) (id : String) : Except ClerkError FileEvent :=
  .ok { name := "file-opened", detail := getItem s id }

/-- An element of the array returned by `FileClerk.listFiles`. -/
structure ListedFile where
  id : String
  filename : List Char
  contents : List Char
  metadata : List Char
deriving DecidableEq, Repr

/-- The source's `FileClerk.listFiles`: maps every stored key to
`{ id, filename, contents, metadata }` read back via `getItem` (which for
a listed key always finds a value; `filterMap` drops the impossible `none`
case). -/
def listFiles (s : Storage) : List ListedFile :=
  (keys s).filterMap (fun key =>
    (getItem s key).map (fun fd =>
      { id := key, filename := fd.filename, contents := fd.contents,
        metadata := fd.metadata }))

/-- N sequential `saveFile` calls, left to right; the k-th call draws
`uuid k` from the environment's `crypto.randomUUID()` stream. -/
def saveFileSeq (uuid : Nat → String) :
    Nat → List (List Char × List Char × List Char) → Storage → Storage
  | _, [], s => s
  | k, (f, c, m) :: rest, s =>
      saveFileSeq uuid (k + 1) rest (setItem s (uuid k) ⟨f, c, m⟩)

/-- UUID stream used to instantiate the claim C2 theorem. -/
def uuidPair (n : Nat) : String := if n = 0 then "id-0" else "id-1"

/-- Inputs used to instantiate the claim C2 theorem. -/
def sampleInputs : List (List Char × List Char × List Char) :=
  [("a".toList, "p".toList, "m".toList), ("b".toList, "q".toList, "n".toList)]

end FileClerk

namespace Codec

/-- Modelled from the spec: the Codec's error taxonomy (`MalformedPayload`
on an ill-formed payload string).  The Codec itself belongs to the
`file-archive` component, which is absent from the sources. -/
inductive CodecError where
  | malformedPayload
deriving DecidableEq, Repr

/-- Modelled from the spec: the base64 alphabet of the environment's
`btoa`/`atob`, which the Codec's `<mediaType>;base64,<data>` payloads
carry. -/
def base64Chars : List Char :=
  "ABCDEFGHIJKLMNOPQRSTUVWXYZabcdefghijklmnopqrstuvwxyz0123456789+/".toList

/-- Modelled from the spec: character encoding a six-bit value in the
base64 alphabet. -/
def tbl (n : Nat) : Char := base64Chars.getD n '='

/-- Modelled from the spec: six-bit value of a base64 character. -/
def idx (c : Char) : Nat := base64Chars.indexOf c

/-- Modelled from the spec: `btoa`-style base64 encoding of a byte
sequence (values < 256): three bytes to four characters, the final group
padded with `=`. -/
def b64encode : List Nat → List Char
  | [] => []
  | [b1] => [tbl (b1 / 4), tbl (b1 % 4 * 16), '=', '=']
  | [b1, b2] => [tbl (b1 / 4), tbl (b1 % 4 * 16 + b2 / 16), tbl (b2 % 16 * 4), '=']
  | b1 :: b2 :: b3 :: rest =>
      tbl (b1 / 4) :: tbl (b1 % 4 * 16 + b2 / 16) :: tbl (b2 % 16 * 4 + b3 / 64)
        :: tbl (b3 % 64) :: b64encode rest

/-- Modelled from the spec: `atob`-style base64 decoding, four characters
to three bytes, `=` padding closing the input. -/
def b64decode : List Char → List Nat
  | c1 :: c2 :: c3 :: c4 :: rest =>
      if c3 = '=' then [idx c1 * 4 + idx c2 / 16]
      else if c4 = '=' then [idx c1 * 4 + idx c2 / 16, idx c2 % 16 * 16 + idx c3 / 4]
      else (idx c1 * 4 + idx c2 / 16) :: (idx c2 % 16 * 16 + idx c3 / 4)
        :: (idx c3 % 4 * 64 + idx c4) :: b64decode rest
  | _ => []

/-- Modelled from the spec: splitting a string at the first occurrence of
a separator character; `none` when the separator is absent. -/
def splitFirst (sep : Char) : List Char → Option (List Char × List Char)
  | [] => none
  | c :: rest =>
      if c = sep then some ([], rest)
      else (splitFirst sep rest).map (fun pr => (c :: pr.1, pr.2))

/-- Modelled from the spec: `encode(mediaType, bytes) -> payload` of the
missing file-archive Codec, producing the tagged string
`<mediaType>;base64,<base64 data>`. -/
def encode (mediaType : List Char) (bytes : List Nat) : List Char :=
  mediaType ++ [';'] ++ "base64".toList ++ [','] ++ b64encode bytes

/-- Modelled from the spec: `decode(payload) -> (mediaType, bytes)` of the
missing file-archive Codec: parses the tagged-string format
`<mediaType>;<encoding>,<data>` and fails with `MalformedPayload` when
the media-type/encoding separator structure is absent. -/
def decode (payload : List Char) : Except CodecError (List Char × List Nat) :=
  match splitFirst ';' payload with
  | none => .error .malformedPayload
  | some (mediaType, rest) =>
      match splitFirst ',' rest with
      | none => .error .malformedPayload
      | some (_, data) => .ok (mediaType, b64decode data)

end Codec

namespace MimeResolver

/-- Modelled from the spec: the generic placeholder media type. -/
def placeholder : List Char := "application/octet-stream".toList

/-- Modelled from the spec: the fixed extension → media-type table of the
missing file-archive component — at minimum the common text, image,
audio, video, and PDF extensions; unknown extensions fall back to the
placeholder. -/
def extensionTable : List (List Char × List Char) :=
  [("txt".toList, "text/plain".toList),
   ("jpg".toList, "image/jpeg".toList),
   ("jpeg".toList, "image/jpeg".toList),
   ("png".toList, "image/png".toList),
   ("webp".toList, "image/webp".toList),
   ("mp3".toList, "audio/mpeg".toList),
   ("mp4".toList, "video/mp4".toList),
   ("pdf".toList, "application/pdf".toList)]

/-- Modelled from the spec: the extension of a file name — the part after
the last dot; `none` when the name has no dot. -/
def extOf (name : List Char) : Option (List Char) :=
  (Codec.splitFirst '.' name.reverse).map (fun pr => pr.1.reverse)

/-- Modelled from the spec: MimeResolver — a present, non-placeholder
media type is used as-is; otherwise the media type is inferred from the
name's extension via the fixed table; otherwise the generic placeholder
carries the record through unresolved. -/
def resolveMediaType (mediaType : List Char) (name : List Char) : List Char :=
  if mediaType ≠ [] ∧ mediaType ≠ placeholder then mediaType
  else
    match extOf name with
    | none => placeholder
    | some ext =>
        match List.lookup ext extensionTable with
        | none => placeholder
        | some mt => mt

end MimeResolver

namespace Archive

/-- Modelled from the spec: a manifest entry of the Container — the
archived record's id, name, media type and metadata. -/
structure ManifestEntry where
  id : String
  name : List Char
  mediaType : List Char
  metadata : List Char
deriving DecidableEq, Repr

/-- Modelled from the spec: the Container artifact — a manifest plus one
binary blob per record, addressable by the record's id. -/
structure Container where
  manifest : List ManifestEntry
  blobs : List (String × List Nat)
deriving DecidableEq, Repr

/-- Modelled from the spec: a per-record warning of id and reason,
collected by export and import. -/
structure Warning where
  id : String
  reason : String
deriving DecidableEq, Repr

/-- Modelled from the spec: the import tally — the number of imported
records and the warnings. -/
structure ImportResult where
  imported : Nat
  warnings : List Warning
deriving DecidableEq, Repr

/-- Modelled from the spec: ArchiveWriter export (the missing
file-archive component) — for each Store record, decode the payload; on
MalformedPayload skip the record with a `{id, reason}` warning; otherwise
append `{id, name, mediaType, metadata}` to the manifest and write the
decoded bytes as the blob keyed by the record's id. -/
def exportArchive : FileClerk.Storage → Container × List Warning
  | [] => (⟨[], []⟩, [])
  | (id, fd) :: rest =>
      match Codec.decode fd.contents with
      | .error _ =>
          let pr := exportArchive rest
          (pr.1, ⟨id, "MalformedPayload"⟩ :: pr.2)
      | .ok (mt, bytes) =>
          let pr := exportArchive rest
          (⟨⟨id, fd.filename, mt, fd.metadata⟩ :: pr.1.manifest,
            (id, bytes) :: pr.1.blobs⟩, pr.2)

/-- Modelled from the spec: ArchiveReader import over the manifest (the
missing file-archive component) — entries are processed sequentially; an
entry whose referenced blob is missing is recorded as a warning and
skipped; otherwise the effective media type is resolved, the payload
rebuilt with `Codec.encode`, and the record created in the Store under a
NEW id (never the archived original id).  The k-th successful create
draws `uuid k` from the environment's id generator. -/
def importEntries (uuid : Nat → String) :
    Nat → List ManifestEntry → List (String × List Nat) → FileClerk.Storage →
      FileClerk.Storage × ImportResult
  | _, [], _, s => (s, ⟨0, []⟩)
  | k, e :: rest, blobs, s =>
      match List.lookup e.id blobs with
      | none =>
          let pr := importEntries uuid k rest blobs s
          (pr.1, ⟨pr.2.imported, ⟨e.id, "missing blob"⟩ :: pr.2.warnings⟩)
      | some bytes =>
          let s2 := FileClerk.setItem s (uuid k)
            ⟨e.name, Codec.encode (MimeResolver.resolveMediaType e.mediaType e.name) bytes,
              e.metadata⟩
          let pr := importEntries uuid (k + 1) rest blobs s2
          (pr.1, ⟨pr.2.imported + 1, pr.2.warnings⟩)

/-- Modelled from the spec: import of a whole Container into a Store. -/
def importContainer (uuid : Nat → String) (c : Container) (s : FileClerk.Storage) :
    FileClerk.Storage × ImportResult :=
  importEntries uuid 0 c.manifest c.blobs s

/-- The data of one well-formed store record, used to state the
export/import round-trip: its stored payload is
`Codec.encode mediaType bytes`. -/
structure RecordSpec where
  id : String
  name : List Char
  mediaType : List Char
  bytes : List Nat
  metadata : List Char
deriving DecidableEq, Repr

/-- The Store holding the given records. -/
def storeOf (recs : List RecordSpec) : FileClerk.Storage :=
  recs.map (fun r => (r.id, ⟨r.name, Codec.encode r.mediaType r.bytes, r.metadata⟩))

/-- The manifest entries that exporting `storeOf recs` produces. -/
def entriesOf (recs : List RecordSpec) : List ManifestEntry :=
  recs.map (fun r => ⟨r.id, r.name, r.mediaType, r.metadata⟩)

/-- The blobs that exporting `storeOf recs` produces. -/
def blobsOf (recs : List RecordSpec) : List (String × List Nat) :=
  recs.map (fun r => (r.id, r.bytes))

/-- Records used to instantiate the claim C3 theorem. -/
def sampleRecs : List RecordSpec :=
  [⟨"orig0", "a.txt".toList, "text/plain".toList, [72], "m".toList⟩,
   ⟨"orig1", "b.png".toList, "image/png".toList, [1, 2, 3], "n".toList⟩]

/-- UUID stream used to instantiate the claim C3 theorem. -/
def sampleUuid (n : Nat) : String := if n = 0 then "new0" else "new1"

end Archive

namespace FileSplitter

theorem jsSlice_zero (s : List Char) (c : Nat) : jsSlice s 0 c = s.take c := by
  simp [jsSlice]

theorem jsSlice_shift (s : List Char) (c i : Nat) :
    jsSlice s ((i + 1) * c) ((i + 2) * c) = jsSlice (s.drop c) (i * c) ((i + 1) * c) := by
  simp only [jsSlice, List.drop_drop]
  have h1 : (i + 2) * c - (i + 1) * c = (i + 1) * c - i * c := by
    have e1 : (i + 2) * c = (i + 1) * c + c := by ring
    have e2 : (i + 1) * c = i * c + c := by ring
    omega
  have h2 : (i + 1) * c = i * c + c := by ring
  rw [h1, h2]
  have h3 : i * c + c = c + i * c := by ring
  rw [h3]

theorem ceilDiv_eq_zero_imp (len c : Nat) (hc : 0 < c) (h : len ⌈/⌉ c = 0) : len = 0 := by
  rw [Nat.ceilDiv_eq_add_pred_div] at h
  by_contra hlen
  have h1 : c ≤ len + c - 1 := by omega
  have h2 : 1 ≤ (len + c - 1) / c := (Nat.one_le_div_iff hc).mpr h1
  omega

theorem ceilDiv_succ_step (len c : Nat) (hc : 0 < c) (hl : 0 < len) :
    len ⌈/⌉ c = (len - c) ⌈/⌉ c + 1 := by
  rw [Nat.ceilDiv_eq_add_pred_div, Nat.ceilDiv_eq_add_pred_div]
  rcases Nat.le_total c len with h | h
  · have e1 : len - c + c - 1 = len - 1 := by omega
    have e2 : len + c - 1 = (len - 1) + c := by omega
    rw [e1, e2, Nat.add_div_right _ hc]
  · have e1 : len - c = 0 := by omega
    rw [e1]
    have e2 : (0 + c - 1) / c = 0 := Nat.div_eq_of_lt (by omega)
    rw [e2]
    have e3 : (len + c - 1) / c = 1 := by
      apply Nat.div_eq_of_lt_le
      · omega
      · have : Nat.succ 1 * c = 2 * c := by ring
        omega
    omega

theorem joinFold_eq_flatten (l : List Chunk) (acc : List Char) :
    l.foldl (fun data ch => data ++ ch.data) acc = acc ++ (l.map Chunk.data).flatten := by
  induction l generalizing acc with
  | nil => simp
  | cons ch l ih => simp [ih, List.append_assoc]

theorem flatten_slices (c : Nat) (hc : 0 < c) :
    ∀ (n : Nat) (p : List Char), p.length ⌈/⌉ c = n →
      ((List.range n).map (fun i => jsSlice p (i * c) ((i + 1) * c))).flatten = p := by
  intro n
  induction n with
  | zero =>
    intro p hp
    have hp0 : p.length = 0 := ceilDiv_eq_zero_imp p.length c hc hp
    have hpnil : p = [] := List.length_eq_zero.mp hp0
    simp [hpnil]
  | succ n ih =>
    intro p hp
    have hlen : 0 < p.length := by
      by_contra hcon
      have h0 : p.length = 0 := by omega
      rw [h0, Nat.ceilDiv_eq_add_pred_div] at hp
      have : (0 + c - 1) / c = 0 := Nat.div_eq_of_lt (by omega)
      omega
    rw [List.range_succ_eq_map]
    simp only [List.map_cons, List.map_map, List.flatten_cons]
    have h0 : jsSlice p (0 * c) ((0 + 1) * c) = p.take c := by
      simp [jsSlice]
    have hshift : List.map ((fun i => jsSlice p (i * c) ((i + 1) * c)) ∘ Nat.succ) (List.range n)
        = List.map (fun i => jsSlice (p.drop c) (i * c) ((i + 1) * c)) (List.range n) := by
      apply List.map_congr_left
      intro i _
      show jsSlice p ((i + 1) * c) ((i + 1 + 1) * c) = jsSlice (p.drop c) (i * c) ((i + 1) * c)
      have : (i + 1 + 1) * c = (i + 2) * c := by ring
      rw [this]
      exact jsSlice_shift p c i
    rw [h0, hshift, ih (p.drop c) ?_]
    · exact List.take_append_drop c p
    · rw [List.length_drop]
      have hstep := ceilDiv_succ_step p.length c hc hlen
      omega

theorem splitFilesWith_pairwise (c : Nat) (p : List Char) :
    (splitFilesWith c p).Pairwise (fun a b => byIndex a b = true) := by
  simp only [splitFilesWith, List.pairwise_map, byIndex, decide_eq_true_eq]
  exact List.pairwise_le_range _

theorem splitFilesWith_map_data (c : Nat) (p : List Char) :
    (splitFilesWith c p).map Chunk.data
      = (List.range (p.length ⌈/⌉ c)).map (fun i => jsSlice p (i * c) ((i + 1) * c)) := by
  simp [splitFilesWith, List.map_map]

/-- Claim C1 (chunk round-trip): for every payload string `p` (including the
empty string) and positive chunk size `c`, joining the chunks produced by
splitting `p` yields exactly `p`; in particular this holds for the source's
`splitFiles` with its fixed `CHUNK_SIZE`. -/
theorem claim1_chunk_roundtrip (c : Nat) (hc : 0 < c) (p : List Char) :
    (joinFiles (splitFilesWith c p)).2 = p ∧ (joinFiles (splitFiles p)).2 = p := by
  have key : ∀ (k : Nat), 0 < k → ∀ q : List Char, (joinFiles (splitFilesWith k q)).2 = q := by
    intro k hk q
    show List.foldl (fun data ch => data ++ ch.data) [] ((splitFilesWith k q).mergeSort byIndex) = q
    rw [List.mergeSort_of_sorted (splitFilesWith_pairwise k q)]
    rw [joinFold_eq_flatten, List.nil_append, splitFilesWith_map_data]
    exact flatten_slices k hk _ q rfl
  exact ⟨key c hc p, key CHUNK_SIZE (by decide) p⟩

theorem claim1_chunk_roundtrip_witness :
    0 < 2 ∧ ((joinFiles (splitFilesWith 2 "hello".toList)).2 = "hello".toList
      ∧ (joinFiles (splitFiles "hello".toList)).2 = "hello".toList) :=
  ⟨by decide, claim1_chunk_roundtrip 2 (by decide) "hello".toList⟩

/-- Claim C6 (chunk shape): for every payload string `p` and positive chunk
size `c`, splitting returns exactly `⌈p.length / c⌉` chunks, every chunk
except possibly the last has data of length exactly `c`, and the chunks'
`index` fields are the ascending integers `0 .. count-1` in emission
order. -/
theorem claim6_chunk_shape (c : Nat) (hc : 0 < c) (p : List Char) :
    (splitFilesWith c p).length = p.length ⌈/⌉ c
      ∧ (∀ i (h : i + 1 < (splitFilesWith c p).length),
          ((splitFilesWith c p).get ⟨i, Nat.lt_of_succ_lt h⟩).data.length = c)
      ∧ (splitFilesWith c p).map Chunk.index = List.range (splitFilesWith c p).length := by
  refine ⟨by simp [splitFilesWith], ?_, ?_⟩
  · intro i h
    have hlen : (splitFilesWith c p).length = p.length ⌈/⌉ c := by simp [splitFilesWith]
    rw [hlen, Nat.ceilDiv_eq_add_pred_div] at h
    have h2 : i + 2 ≤ (p.length + c - 1) / c := h
    have h3 : (i + 2) * c ≤ p.length + c - 1 := (Nat.le_div_iff_mul_le hc).mp h2
    have e1 : (i + 2) * c = (i + 1) * c + c := by ring
    have e2 : (i + 1) * c = i * c + c := by ring
    simp [splitFilesWith, jsSlice]
    omega
  · simp only [splitFilesWith, List.map_map, List.length_map, List.length_range]
    have hcomp : (Chunk.index ∘ fun i =>
        ({ index := i, data := jsSlice p (i * c) ((i + 1) * c) } : Chunk)) = fun i => i := by
      funext i
      rfl
    rw [hcomp]
    simp

theorem claim6_chunk_shape_witness :
    0 < 2 ∧ ((splitFilesWith 2 "abcde".toList).length = "abcde".toList.length ⌈/⌉ 2
      ∧ (∀ i (h : i + 1 < (splitFilesWith 2 "abcde".toList).length),
          ((splitFilesWith 2 "abcde".toList).get ⟨i, Nat.lt_of_succ_lt h⟩).data.length = 2)
      ∧ (splitFilesWith 2 "abcde".toList).map Chunk.index
          = List.range (splitFilesWith 2 "abcde".toList).length) :=
  ⟨by decide, claim6_chunk_shape 2 (by decide) "abcde".toList⟩

/-- Claim C9 (implicit frame effect): `joinFiles` sorts the caller's chunk
array in place by ascending `index` — after the call the argument array is a
permutation of the original in ascending-index order — and `joinFiles` is
not pure with respect to its input, witnessed by a two-chunk array that the
call reorders. -/
theorem claim9_joinFiles_sorts_argument :
    (∀ chunks : List Chunk,
        (joinFiles chunks).1.Perm chunks
          ∧ (joinFiles chunks).1.Pairwise (fun a b => a.index ≤ b.index))
      ∧ (joinFiles [{ index := 1, data := ['b'] }, { index := 0, data := ['a'] }]).1
          ≠ [{ index := 1, data := ['b'] }, { index := 0, data := ['a'] }] := by
  have hsorted : ∀ chunks : List Chunk,
      (joinFiles chunks).1.Pairwise (fun a b => a.index ≤ b.index) := by
    intro chunks
    refine (List.sorted_mergeSort ?_ ?_ chunks).imp ?_
    · intro a b c hab hbc
      simp only [byIndex, decide_eq_true_eq] at hab hbc ⊢
      omega
    · intro a b
      simp only [byIndex]
      rw [Bool.or_eq_true]
      simp only [decide_eq_true_eq]
      omega
    · intro a b hb
      simpa [byIndex] using hb
  constructor
  · intro chunks
    exact ⟨List.mergeSort_perm chunks byIndex, hsorted chunks⟩
  · intro hEq
    have h := hsorted [{ index := 1, data := ['b'] }, { index := 0, data := ['a'] }]
    rw [hEq] at h
    have h01 := (List.pairwise_cons.mp h).1 _ (List.mem_cons_self _ _)
    simp at h01

end FileSplitter

namespace FileClerk

theorem getItem_setItem_self (s : Storage) (id : String) (v : FileData) :
    getItem (setItem s id v) id = some v := by
  induction s with
  | nil => simp [setItem, getItem]
  | cons kv rest ih =>
    obtain ⟨k, w⟩ := kv
    by_cases h : k = id
    · simp [setItem, getItem, h]
    · simp [setItem, getItem, h, ih]

theorem getItem_setItem_ne (s : Storage) (id key : String) (v : FileData)
    (h : id ≠ key) : getItem (setItem s id v) key = getItem s key := by
  induction s with
  | nil => simp [setItem, getItem, h]
  | cons kv rest ih =>
    obtain ⟨k, w⟩ := kv
    by_cases hk : k = id
    · subst hk
      simp [setItem, getItem, h]
    · simp [setItem, getItem, hk, ih]

theorem getItem_removeItem_self (s : Storage) (id : String) :
    getItem (removeItem s id) id = none := by
  induction s with
  | nil => simp [removeItem, getItem]
  | cons kv rest ih =>
    obtain ⟨k, w⟩ := kv
    by_cases h : k = id
    · simp [removeItem, h, ih]
    · simp [removeItem, getItem, h, ih]

theorem saveFileSeq_getItem_out (uuid : Nat → String) :
    ∀ (inputs : List (List Char × List Char × List Char)) (k : Nat)
      (s : Storage) (key : String),
      (∀ j, j < inputs.length → uuid (k + j) ≠ key) →
      getItem (saveFileSeq uuid k inputs s) key = getItem s key := by
  intro inputs
  induction inputs with
  | nil =>
    intro k s key _
    rfl
  | cons x rest ih =>
    intro k s key h
    obtain ⟨f, c, m⟩ := x
    show getItem (saveFileSeq uuid (k + 1) rest (setItem s (uuid k) ⟨f, c, m⟩)) key
      = getItem s key
    rw [ih (k + 1) _ key ?later]
    · have h0 : uuid k ≠ key := by
        have := h 0 (by simp)
        simpa using this
      exact getItem_setItem_ne s (uuid k) key ⟨f, c, m⟩ h0
    case later =>
      intro j hj
      have := h (j + 1) (by simp; omega)
      have e : k + (j + 1) = k + 1 + j := by omega
      rw [e] at this
      exact this

theorem saveFileSeq_getItem (uuid : Nat → String) :
    ∀ (inputs : List (List Char × List Char × List Char)) (k : Nat) (s : Storage),
      (∀ a b, a < inputs.length → b < inputs.length → a ≠ b → uuid (k + a) ≠ uuid (k + b)) →
      ∀ j (h : j < inputs.length),
        getItem (saveFileSeq uuid k inputs s) (uuid (k + j))
          = some ⟨(inputs.get ⟨j, h⟩).1, (inputs.get ⟨j, h⟩).2.1, (inputs.get ⟨j, h⟩).2.2⟩ := by
  intro inputs
  induction inputs with
  | nil =>
    intro k s _ j h
    exact absurd h (by simp)
  | cons x rest ih =>
    intro k s hfresh j h
    obtain ⟨f, c, m⟩ := x
    match j with
    | 0 =>
      show getItem (saveFileSeq uuid (k + 1) rest (setItem s (uuid k) ⟨f, c, m⟩)) (uuid (k + 0))
        = some ⟨f, c, m⟩
      rw [saveFileSeq_getItem_out uuid rest (k + 1) _ (uuid (k + 0)) ?fresh]
      · have e : k + 0 = k := by omega
        rw [e]
        exact getItem_setItem_self s (uuid k) ⟨f, c, m⟩
      case fresh =>
        intro j2 hj2
        have e : k + 1 + j2 = k + (j2 + 1) := by omega
        rw [e]
        exact hfresh (j2 + 1) 0 (by simp; omega) (by simp) (by omega)
    | j2 + 1 =>
      have e : k + (j2 + 1) = k + 1 + j2 := by omega
      rw [e]
      show getItem (saveFileSeq uuid (k + 1) rest (setItem s (uuid k) ⟨f, c, m⟩)) (uuid (k + 1 + j2))
        = _
      rw [ih (k + 1) _ ?shifted j2 (by simpa using Nat.lt_of_succ_lt_succ h)]
      · simp
      case shifted =>
        intro a b ha hb hab
        have e1 : k + 1 + a = k + (a + 1) := by omega
        have e2 : k + 1 + b = k + (b + 1) := by omega
        rw [e1, e2]
        exact hfresh (a + 1) (b + 1) (by simp; omega) (by simp; omega) (by omega)

/-- Claim C2, amended: `saveFile` persists the record under the fresh
environment-generated uuid, but its promise resolves to `undefined` — it
does not return the generated id.  N sequential calls whose uuid draws are
pairwise distinct store N records under N distinct ids, and a subsequent
read (`openFile`) of any created id dispatches exactly the record that was
written (same name, payload, metadata). -/
theorem claim2_store_create (uuid : Nat → String)
    (inputs : List (List Char × List Char × List Char)) (s : FileClerk.Storage)
    (hinj : ∀ a, a < inputs.length → ∀ b, b < inputs.length → uuid a = uuid b → a = b) :
    ((List.range inputs.length).map uuid).Nodup
      ∧ (∀ j (h : j < inputs.length),
          FileClerk.openFile (FileClerk.saveFileSeq uuid 0 inputs s) (uuid j)
            = .ok { name := "file-opened",
                    detail := some { filename := (inputs.get ⟨j, h⟩).1,
                                     contents := (inputs.get ⟨j, h⟩).2.1,
                                     metadata := (inputs.get ⟨j, h⟩).2.2 } })
      ∧ (∀ (t : FileClerk.Storage) (u : String) (f c m : List Char),
          ∃ t2, FileClerk.saveFile t u f c m = .ok (t2, none)) := by
  refine ⟨?_, ?_, ?_⟩
  · apply List.Nodup.map_on ?_ (List.nodup_range _)
    intro a ha b hb hab
    exact hinj a (List.mem_range.mp ha) b (List.mem_range.mp hb) hab
  · intro j h
    have hfresh : ∀ a b, a < inputs.length → b < inputs.length → a ≠ b →
        uuid (0 + a) ≠ uuid (0 + b) := by
      intro a b ha hb hne
      simp only [Nat.zero_add]
      intro hEq
      exact hne (hinj a ha b hb hEq)
    have hget := saveFileSeq_getItem uuid inputs 0 s hfresh j h
    simp only [Nat.zero_add] at hget
    simp only [FileClerk.openFile, hget]
  · intro t u f c m
    exact ⟨FileClerk.setItem t u ⟨f, c, m⟩, rfl⟩

theorem claim2_store_create_witness :
    (∀ a, a < sampleInputs.length → ∀ b, b < sampleInputs.length →
        uuidPair a = uuidPair b → a = b)
      ∧ (((List.range sampleInputs.length).map uuidPair).Nodup
        ∧ (∀ j (h : j < sampleInputs.length),
            FileClerk.openFile (FileClerk.saveFileSeq uuidPair 0 sampleInputs []) (uuidPair j)
              = .ok { name := "file-opened",
                      detail := some { filename := (sampleInputs.get ⟨j, h⟩).1,
                                       contents := (sampleInputs.get ⟨j, h⟩).2.1,
                                       metadata := (sampleInputs.get ⟨j, h⟩).2.2 } })
        ∧ (∀ (t : FileClerk.Storage) (u : String) (f c m : List Char),
            ∃ t2, FileClerk.saveFile t u f c m = .ok (t2, none))) :=
  ⟨by decide, claim2_store_create uuidPair sampleInputs [] (by decide)⟩

/-- Counterexample to claim C2 as stated: at a concrete input the source's
`saveFile` resolves to `undefined` (`none`) — it does not return the
generated id `"u0"`. -/
theorem claim2_counterexample :
    FileClerk.saveFile [] "u0" "a".toList "p".toList "m".toList
        = .ok (FileClerk.setItem [] "u0" ⟨"a".toList, "p".toList, "m".toList⟩, none)
      ∧ (none : Option String) ≠ some "u0" :=
  ⟨rfl, by decide⟩

/-- Claim C4, amended: reading an absent id does not fail with NotFound —
`openFile` always resolves, dispatching the `file-opened` event whose
detail is the storage lookup result, `none` for an absent id. -/
theorem claim4_read_absent (s : FileClerk.Storage) (id : String)
    (h : FileClerk.getItem s id = none) :
    FileClerk.openFile s id ≠ .error ClerkError.notFound
      ∧ FileClerk.openFile s id = .ok { name := "file-opened", detail := none } := by
  constructor
  · exact fun hcon => Except.noConfusion hcon
  · simp [FileClerk.openFile, h]

theorem claim4_read_absent_witness :
    FileClerk.getItem [] "ghost" = none
      ∧ (FileClerk.openFile [] "ghost" ≠ .error ClerkError.notFound
        ∧ FileClerk.openFile [] "ghost" = .ok { name := "file-opened", detail := none }) :=
  ⟨rfl, claim4_read_absent [] "ghost" rfl⟩

/-- Counterexample to claim C4 as stated: at the concrete absent id
`"missing"` in the empty store, `openFile` does not fail with NotFound but
resolves, dispatching the event with a null detail. -/
theorem claim4_counterexample :
    FileClerk.openFile [] "missing" ≠ .error ClerkError.notFound
      ∧ FileClerk.openFile [] "missing" = .ok { name := "file-opened", detail := none } :=
  ⟨fun hcon => Except.noConfusion hcon, rfl⟩

/-- Claim C5, amended: `deleteFile` always resolves.  For any store it
removes whatever record is under the id — a subsequent lookup yields null
and a subsequent read dispatches a null detail — and deleting an absent id
resolves as a no-op rather than failing with NotFound. -/
theorem claim5_delete (s : FileClerk.Storage) (id : String) :
    FileClerk.deleteFile s id = .ok (FileClerk.removeItem s id)
      ∧ FileClerk.getItem (FileClerk.removeItem s id) id = none
      ∧ FileClerk.openFile (FileClerk.removeItem s id) id
          = .ok { name := "file-opened", detail := none }
      ∧ FileClerk.deleteFile s id ≠ .error ClerkError.notFound := by
  refine ⟨rfl, FileClerk.getItem_removeItem_self s id, ?_, ?_⟩
  · simp [FileClerk.openFile, FileClerk.getItem_removeItem_self]
  · exact fun hcon => Except.noConfusion hcon

/-- Counterexample to claim C5 as stated: deleting the absent id `"ghost"`
from the empty store resolves (as a no-op) instead of failing with
NotFound. -/
theorem claim5_counterexample :
    FileClerk.deleteFile [] "ghost" ≠ .error ClerkError.notFound
      ∧ FileClerk.deleteFile [] "ghost" = .ok [] :=
  ⟨fun hcon => Except.noConfusion hcon, rfl⟩

/-- Claim C10 (implicit): for an id with no record in storage, `openFile`
completes without any error and dispatches the `file-opened` event whose
detail is the null value returned by the storage lookup. -/
theorem claim10_open_absent (s : FileClerk.Storage) (id : String)
    (h : FileClerk.getItem s id = none) :
    (∀ e : ClerkError, FileClerk.openFile s id ≠ .error e)
      ∧ FileClerk.openFile s id = .ok { name := "file-opened", detail := none } := by
  constructor
  · exact fun e hcon => Except.noConfusion hcon
  · simp [FileClerk.openFile, h]

theorem claim10_open_absent_witness :
    FileClerk.getItem [] "nope" = none
      ∧ ((∀ e : ClerkError, FileClerk.openFile [] "nope" ≠ .error e)
        ∧ FileClerk.openFile [] "nope" = .ok { name := "file-opened", detail := none }) :=
  ⟨rfl, claim10_open_absent [] "nope" rfl⟩

theorem mem_keys_setItem (s : Storage) (id : String) (v : FileData) (x : String) :
    x ∈ keys (setItem s id v) ↔ x ∈ keys s ∨ x = id := by
  induction s with
  | nil => simp [setItem, keys]
  | cons kv rest ih =>
    obtain ⟨k, w⟩ := kv
    by_cases h : k = id
    · simp [setItem, keys, h]
      tauto
    · simp only [setItem, if_neg h, keys, List.map_cons, List.mem_cons]
      simp only [keys] at ih
      rw [ih]
      tauto

theorem length_setItem_fresh (s : Storage) (id : String) (v : FileData)
    (h : id ∉ keys s) : (setItem s id v).length = s.length + 1 := by
  induction s with
  | nil => rfl
  | cons kv rest ih =>
    obtain ⟨k, w⟩ := kv
    have hk : k ≠ id := by
      intro hcon
      exact h (by simp [keys, hcon])
    have hrest : id ∉ keys rest := by
      intro hm
      exact h (by simp [keys] at hm ⊢; tauto)
    simp [setItem, hk, ih hrest]

theorem saveFileSeq_length (uuid : Nat → String) :
    ∀ (inputs : List (List Char × List Char × List Char)) (k : Nat) (s : Storage),
      (∀ j, j < inputs.length → uuid (k + j) ∉ keys s) →
      (∀ a b, a < inputs.length → b < inputs.length → a ≠ b → uuid (k + a) ≠ uuid (k + b)) →
      (saveFileSeq uuid k inputs s).length = s.length + inputs.length := by
  intro inputs
  induction inputs with
  | nil =>
    intro k s _ _
    simp [saveFileSeq]
  | cons x rest ih =>
    intro k s hkeys hdist
    obtain ⟨f, c, m⟩ := x
    have h0 : uuid k ∉ keys s := by
      have := hkeys 0 (by simp)
      simpa using this
    show (saveFileSeq uuid (k + 1) rest (setItem s (uuid k) ⟨f, c, m⟩)).length
      = s.length + (rest.length + 1)
    rw [ih (k + 1) _ ?keys2 ?dist2]
    · rw [length_setItem_fresh s (uuid k) ⟨f, c, m⟩ h0]
      omega
    case keys2 =>
      intro j hj hmem
      rw [mem_keys_setItem] at hmem
      rcases hmem with hmem | hmem
      · have := hkeys (j + 1) (by simp; omega)
        rw [show k + (j + 1) = k + 1 + j from by omega] at this
        exact this hmem
      · have := hdist (j + 1) 0 (by simp; omega) (by simp) (by omega)
        rw [show k + (j + 1) = k + 1 + j from by omega, Nat.add_zero] at this
        exact this hmem
    case dist2 =>
      intro a b ha hb hab
      have := hdist (a + 1) (b + 1) (by simp; omega) (by simp; omega) (by omega)
      rw [show k + (a + 1) = k + 1 + a from by omega,
        show k + (b + 1) = k + 1 + b from by omega] at this
      exact this

theorem keys_saveFileSeq_sub (uuid : Nat → String) :
    ∀ (inputs : List (List Char × List Char × List Char)) (k : Nat) (s : Storage)
      (key : String),
      key ∈ keys (saveFileSeq uuid k inputs s) →
      key ∈ keys s ∨ ∃ j, j < inputs.length ∧ key = uuid (k + j) := by
  intro inputs
  induction inputs with
  | nil =>
    intro k s key h
    exact Or.inl h
  | cons x rest ih =>
    intro k s key h
    obtain ⟨f, c, m⟩ := x
    have h2 := ih (k + 1) (setItem s (uuid k) ⟨f, c, m⟩) key h
    rcases h2 with h2 | ⟨j, hj, hkeq⟩
    · rw [mem_keys_setItem] at h2
      rcases h2 with h2 | h2
      · exact Or.inl h2
      · exact Or.inr ⟨0, by simp, by simpa using h2⟩
    · refine Or.inr ⟨j + 1, by simp; omega, ?_⟩
      rw [show k + (j + 1) = k + 1 + j from by omega]
      exact hkeq

end FileClerk

namespace Codec

theorem idx_tbl : ∀ n, n < 64 → idx (tbl n) = n := by decide

theorem tbl_ne_pad : ∀ n, n < 64 → tbl n ≠ '=' := by decide

theorem b64_roundtrip :
    ∀ (bytes : List Nat), (∀ b ∈ bytes, b < 256) → b64decode (b64encode bytes) = bytes
  | [], _ => rfl
  | [b1], h => by
    have hb1 : b1 < 256 := h b1 (by simp)
    show b64decode [tbl (b1 / 4), tbl (b1 % 4 * 16), '=', '='] = [b1]
    rw [b64decode, if_pos rfl]
    rw [idx_tbl (b1 / 4) (by omega), idx_tbl (b1 % 4 * 16) (by omega)]
    simp only [List.cons.injEq, and_true]
    omega
  | [b1, b2], h => by
    have hb1 : b1 < 256 := h b1 (by simp)
    have hb2 : b2 < 256 := h b2 (by simp)
    show b64decode [tbl (b1 / 4), tbl (b1 % 4 * 16 + b2 / 16), tbl (b2 % 16 * 4), '='] = [b1, b2]
    rw [b64decode, if_neg (tbl_ne_pad (b2 % 16 * 4) (by omega)), if_pos rfl]
    rw [idx_tbl (b1 / 4) (by omega), idx_tbl (b1 % 4 * 16 + b2 / 16) (by omega),
      idx_tbl (b2 % 16 * 4) (by omega)]
    simp only [List.cons.injEq, and_true]
    omega
  | b1 :: b2 :: b3 :: rest, h => by
    have hb1 : b1 < 256 := h b1 (by simp)
    have hb2 : b2 < 256 := h b2 (by simp)
    have hb3 : b3 < 256 := h b3 (by simp)
    have ih := b64_roundtrip rest (fun b hb => h b (by simp; tauto))
    show b64decode (tbl (b1 / 4) :: tbl (b1 % 4 * 16 + b2 / 16) :: tbl (b2 % 16 * 4 + b3 / 64)
      :: tbl (b3 % 64) :: b64encode rest) = b1 :: b2 :: b3 :: rest
    rw [b64decode, if_neg (tbl_ne_pad (b2 % 16 * 4 + b3 / 64) (by omega)),
      if_neg (tbl_ne_pad (b3 % 64) (by omega))]
    rw [idx_tbl (b1 / 4) (by omega), idx_tbl (b1 % 4 * 16 + b2 / 16) (by omega),
      idx_tbl (b2 % 16 * 4 + b3 / 64) (by omega), idx_tbl (b3 % 64) (by omega)]
    rw [ih]
    simp only [List.cons.injEq, and_true, true_and]
    refine ⟨by omega, by omega, by omega⟩

theorem splitFirst_append (sep : Char) (xs ys : List Char) (h : sep ∉ xs) :
    splitFirst sep (xs ++ sep :: ys) = some (xs, ys) := by
  induction xs with
  | nil => simp [splitFirst]
  | cons c rest ih =>
    have hc : c ≠ sep := by
      intro hcon
      exact h (by simp [hcon])
    have hrest : sep ∉ rest := fun hm => h (by simp [hm])
    show splitFirst sep (c :: (rest ++ sep :: ys)) = some (c :: rest, ys)
    rw [splitFirst, if_neg hc, ih hrest]
    rfl

theorem splitFirst_not_mem (sep : Char) (l : List Char) (h : sep ∉ l) :
    splitFirst sep l = none := by
  induction l with
  | nil => rfl
  | cons c rest ih =>
    have hc : c ≠ sep := by
      intro hcon
      exact h (by simp [hcon])
    have hrest : sep ∉ rest := fun hm => h (by simp [hm])
    rw [splitFirst, if_neg hc, ih hrest]
    rfl

theorem encode_eq (mediaType : List Char) (bytes : List Nat) :
    encode mediaType bytes
      = mediaType ++ ';' :: ("base64".toList ++ ',' :: b64encode bytes) := by
  simp [encode]

theorem decode_encode (m : List Char) (bytes : List Nat)
    (hm : ';' ∉ m) (hb : ∀ b ∈ bytes, b < 256) :
    decode (encode m bytes) = .ok (m, bytes) := by
  have h1 := splitFirst_append ';' m ("base64".toList ++ ',' :: b64encode bytes) hm
  have h2 := splitFirst_append ',' "base64".toList (b64encode bytes) (by decide)
  rw [encode_eq]
  simp only [decode, h1, h2, b64_roundtrip bytes hb]

/-- Claim C7 (codec round-trip): for every media type `m` (an IANA-style
string, so free of the `;` separator) and every byte sequence,
`decode (encode m b) = (m, b)`; and `decode` fails with `MalformedPayload`
whenever the media-type/encoding separator structure is absent — no `;`
at all, or no `,` after the first `;`. -/
theorem claim7_codec_roundtrip (m : List Char) (bytes : List Nat)
    (hm : ';' ∉ m) (hb : ∀ b ∈ bytes, b < 256) :
    decode (encode m bytes) = .ok (m, bytes)
      ∧ (∀ p : List Char, ';' ∉ p → decode p = .error .malformedPayload)
      ∧ (∀ xs ys : List Char, ';' ∉ xs → ',' ∉ ys →
          decode (xs ++ ';' :: ys) = .error .malformedPayload) := by
  refine ⟨decode_encode m bytes hm hb, ?_, ?_⟩
  · intro p hp
    simp only [decode, splitFirst_not_mem ';' p hp]
  · intro xs ys hxs hys
    simp only [decode, splitFirst_append ';' xs ys hxs, splitFirst_not_mem ',' ys hys]

theorem claim7_codec_roundtrip_witness :
    (';' ∉ "text/plain".toList ∧ (∀ b ∈ [72, 105], b < 256))
      ∧ (decode (encode "text/plain".toList [72, 105]) = .ok ("text/plain".toList, [72, 105])
        ∧ (∀ p : List Char, ';' ∉ p → decode p = .error .malformedPayload)
        ∧ (∀ xs ys : List Char, ';' ∉ xs → ',' ∉ ys →
            decode (xs ++ ';' :: ys) = .error .malformedPayload)) :=
  ⟨⟨by decide, by decide⟩,
    claim7_codec_roundtrip "text/plain".toList [72, 105] (by decide) (by decide)⟩

end Codec

namespace MimeResolver

theorem resolveMediaType_keeps (mediaType name : List Char)
    (h1 : mediaType ≠ []) (h2 : mediaType ≠ placeholder) :
    resolveMediaType mediaType name = mediaType := by
  rw [resolveMediaType, if_pos ⟨h1, h2⟩]

end MimeResolver

namespace Archive

theorem exportArchive_storeOf (recs : List RecordSpec)
    (h : ∀ r ∈ recs,
      Codec.decode (Codec.encode r.mediaType r.bytes) = .ok (r.mediaType, r.bytes)) :
    exportArchive (storeOf recs) = (⟨entriesOf recs, blobsOf recs⟩, []) := by
  induction recs with
  | nil => rfl
  | cons r rest ih =>
    have hr := h r (by simp)
    have hrest := ih (fun x hx => h x (by simp [hx]))
    show exportArchive ((r.id, ⟨r.name, Codec.encode r.mediaType r.bytes, r.metadata⟩)
        :: storeOf rest) = _
    simp only [exportArchive, hr, hrest, entriesOf, blobsOf, List.map_cons]

theorem lookup_blobsOf (recs : List RecordSpec)
    (hids : (recs.map RecordSpec.id).Nodup) :
    ∀ r ∈ recs, List.lookup r.id (blobsOf recs) = some r.bytes := by
  induction recs with
  | nil =>
    intro r hr
    cases hr
  | cons x rest ih =>
    intro r hr
    have hnd : (∀ y ∈ rest, ¬ y.id = x.id) ∧ (rest.map RecordSpec.id).Nodup := by
      simpa using hids
    rcases List.mem_cons.mp hr with h | h
    · subst h
      show List.lookup r.id ((r.id, r.bytes) :: blobsOf rest) = some r.bytes
      simp [List.lookup]
    · have hx : x.id ≠ r.id := by
        intro hcon
        exact hnd.1 r h hcon.symm
      have hbeq : (r.id == x.id) = false := beq_eq_false_iff_ne.mpr (Ne.symm hx)
      show List.lookup r.id ((x.id, x.bytes) :: blobsOf rest) = some r.bytes
      simp only [List.lookup, hbeq]
      exact ih hnd.2 r h

theorem importEntries_eq_save (uuid : Nat → String) :
    ∀ (recs : List RecordSpec) (k : Nat) (s : FileClerk.Storage)
      (blobs : List (String × List Nat)),
      (∀ r ∈ recs, List.lookup r.id blobs = some r.bytes) →
      (∀ r ∈ recs, MimeResolver.resolveMediaType r.mediaType r.name = r.mediaType) →
      importEntries uuid k (entriesOf recs) blobs s
        = (FileClerk.saveFileSeq uuid k
            (recs.map (fun r => (r.name, Codec.encode r.mediaType r.bytes, r.metadata))) s,
           ⟨recs.length, []⟩) := by
  intro recs
  induction recs with
  | nil =>
    intro k s blobs _ _
    rfl
  | cons r rest ih =>
    intro k s blobs hlook hres
    have hr := hlook r (by simp)
    have hresr := hres r (by simp)
    show importEntries uuid k (⟨r.id, r.name, r.mediaType, r.metadata⟩ :: entriesOf rest)
        blobs s = _
    simp only [importEntries, hr, hresr,
      ih (k + 1) _ blobs (fun x hx => hlook x (by simp [hx])) (fun x hx => hres x (by simp [hx])),
      List.map_cons, List.length_cons, FileClerk.saveFileSeq]

/-- Claim C3, amended: exporting a Store whose records carry well-formed
payloads `encode(m, b)` with non-placeholder media types, then importing
the Container into an empty Store with collision-free fresh uuids, yields
exactly n records (all counted as imported) whose name, decoded media
type, decoded bytes and metadata equal the originals', while every
imported record's id differs from every archived original id.  (For a
record whose media type is the generic placeholder the MimeResolver may
rewrite the type from the name's extension, so such records are excluded;
see the counterexample.) -/
theorem claim3_export_import_roundtrip (uuid : Nat → String) (recs : List RecordSpec)
    (hm : ∀ r ∈ recs, ';' ∉ r.mediaType ∧ r.mediaType ≠ []
        ∧ r.mediaType ≠ MimeResolver.placeholder)
    (hb : ∀ r ∈ recs, ∀ b ∈ r.bytes, b < 256)
    (hids : (recs.map RecordSpec.id).Nodup)
    (huuid : ∀ a, a < recs.length → ∀ b, b < recs.length → uuid a = uuid b → a = b)
    (hfresh : ∀ k, k < recs.length → uuid k ∉ recs.map RecordSpec.id) :
    (importContainer uuid (exportArchive (storeOf recs)).1 []).1.length = recs.length
      ∧ (importContainer uuid (exportArchive (storeOf recs)).1 []).2.imported = recs.length
      ∧ (∀ j (h : j < recs.length),
          ∃ fd : FileData,
            FileClerk.getItem (importContainer uuid (exportArchive (storeOf recs)).1 []).1
                (uuid j) = some fd
              ∧ fd.filename = (recs.get ⟨j, h⟩).name
              ∧ fd.metadata = (recs.get ⟨j, h⟩).metadata
              ∧ Codec.decode fd.contents
                  = .ok ((recs.get ⟨j, h⟩).mediaType, (recs.get ⟨j, h⟩).bytes))
      ∧ (∀ key ∈ FileClerk.keys (importContainer uuid (exportArchive (storeOf recs)).1 []).1,
          key ∉ recs.map RecordSpec.id) := by
  have hdec : ∀ r ∈ recs,
      Codec.decode (Codec.encode r.mediaType r.bytes) = .ok (r.mediaType, r.bytes) :=
    fun r hr => Codec.decode_encode _ _ (hm r hr).1 (hb r hr)
  have hexp := exportArchive_storeOf recs hdec
  have hres : ∀ r ∈ recs, MimeResolver.resolveMediaType r.mediaType r.name = r.mediaType :=
    fun r hr => MimeResolver.resolveMediaType_keeps _ _ (hm r hr).2.1 (hm r hr).2.2
  have himp := importEntries_eq_save uuid recs 0 [] (blobsOf recs)
    (lookup_blobsOf recs hids) hres
  have hstore : (importContainer uuid (exportArchive (storeOf recs)).1 []).1
      = FileClerk.saveFileSeq uuid 0
          (recs.map (fun r => (r.name, Codec.encode r.mediaType r.bytes, r.metadata))) [] := by
    rw [hexp]
    show (importEntries uuid 0 (entriesOf recs) (blobsOf recs) []).1 = _
    rw [himp]
  have htally : (importContainer uuid (exportArchive (storeOf recs)).1 []).2
      = ⟨recs.length, []⟩ := by
    rw [hexp]
    show (importEntries uuid 0 (entriesOf recs) (blobsOf recs) []).2 = _
    rw [himp]
  have hlen : (recs.map (fun r => (r.name, Codec.encode r.mediaType r.bytes, r.metadata))).length
      = recs.length := by simp
  have hwin : ∀ a b,
      a < (recs.map (fun r => (r.name, Codec.encode r.mediaType r.bytes, r.metadata))).length →
      b < (recs.map (fun r => (r.name, Codec.encode r.mediaType r.bytes, r.metadata))).length →
      a ≠ b → uuid (0 + a) ≠ uuid (0 + b) := by
    intro a b ha hb2 hab
    simp only [Nat.zero_add]
    intro hcon
    rw [hlen] at ha hb2
    exact hab (huuid a ha b hb2 hcon)
  refine ⟨?_, ?_, ?_, ?_⟩
  · rw [hstore, FileClerk.saveFileSeq_length uuid _ 0 [] ?nokeys hwin]
    · simp [hlen]
    case nokeys =>
      intro j _ hmem
      simp [FileClerk.keys] at hmem
  · rw [htally]
  · intro j h
    have hget := FileClerk.saveFileSeq_getItem uuid
      (recs.map (fun r => (r.name, Codec.encode r.mediaType r.bytes, r.metadata)))
      0 [] hwin j (by simpa [hlen] using h)
    simp only [Nat.zero_add] at hget
    simp only [List.get_eq_getElem, List.getElem_map] at hget
    rw [hstore]
    simp only [List.get_eq_getElem]
    refine ⟨_, hget, rfl, rfl, ?_⟩
    exact hdec _ (List.getElem_mem (by simpa [hlen] using h))
  · intro key hkey
    rw [hstore] at hkey
    have hsub := FileClerk.keys_saveFileSeq_sub uuid _ 0 [] key hkey
    rcases hsub with hmem | ⟨j, hj, hkeq⟩
    · simp [FileClerk.keys] at hmem
    · rw [hkeq]
      simp only [Nat.zero_add]
      exact hfresh j (by rw [hlen] at hj; exact hj)

theorem claim3_export_import_roundtrip_witness :
    ((∀ r ∈ sampleRecs, ';' ∉ r.mediaType ∧ r.mediaType ≠ []
        ∧ r.mediaType ≠ MimeResolver.placeholder)
      ∧ (∀ r ∈ sampleRecs, ∀ b ∈ r.bytes, b < 256)
      ∧ (sampleRecs.map RecordSpec.id).Nodup
      ∧ (∀ a, a < sampleRecs.length → ∀ b, b < sampleRecs.length →
          sampleUuid a = sampleUuid b → a = b)
      ∧ (∀ k, k < sampleRecs.length → sampleUuid k ∉ sampleRecs.map RecordSpec.id))
    ∧ ((importContainer sampleUuid (exportArchive (storeOf sampleRecs)).1 []).1.length
          = sampleRecs.length
      ∧ (importContainer sampleUuid (exportArchive (storeOf sampleRecs)).1 []).2.imported
          = sampleRecs.length
      ∧ (∀ j (h : j < sampleRecs.length),
          ∃ fd : FileData,
            FileClerk.getItem
                (importContainer sampleUuid (exportArchive (storeOf sampleRecs)).1 []).1
                (sampleUuid j) = some fd
              ∧ fd.filename = (sampleRecs.get ⟨j, h⟩).name
              ∧ fd.metadata = (sampleRecs.get ⟨j, h⟩).metadata
              ∧ Codec.decode fd.contents
                  = .ok ((sampleRecs.get ⟨j, h⟩).mediaType, (sampleRecs.get ⟨j, h⟩).bytes))
      ∧ (∀ key ∈ FileClerk.keys
            (importContainer sampleUuid (exportArchive (storeOf sampleRecs)).1 []).1,
          key ∉ sampleRecs.map RecordSpec.id)) :=
  ⟨⟨by decide, by decide, by decide, by decide, by decide⟩,
    claim3_export_import_roundtrip sampleUuid sampleRecs
      (by decide) (by decide) (by decide) (by decide) (by decide)⟩

/-- Counterexample to claim C3 as stated: a store holding one record named
`notes.txt` whose media type is the generic placeholder round-trips to a
record whose decoded media type is `text/plain`, not the original
placeholder — import repairs the type, so the decoded media types are not
equal for every store. -/
theorem claim3_counterexample :
    (FileClerk.getItem
        (importContainer (fun _ => "new0")
          (exportArchive [("orig0",
            ⟨"notes.txt".toList, Codec.encode MimeResolver.placeholder [104],
              "m".toList⟩)]).1 []).1 "new0").map (fun fd => Codec.decode fd.contents)
      = some (.ok ("text/plain".toList, [104]))
      ∧ ("text/plain".toList : List Char) ≠ MimeResolver.placeholder := by
  exact ⟨rfl, by decide⟩

/-- Claim C8 (MIME repair on import): a manifest entry whose media type is
the generic placeholder (`application/octet-stream` or empty) and whose
name is `notes.txt` has its effective media type resolved to `text/plain`
via the fixed extension table, and import rebuilds the stored payload with
the repaired type. -/
theorem claim8_mime_repair :
    MimeResolver.resolveMediaType MimeResolver.placeholder "notes.txt".toList
        = "text/plain".toList
      ∧ MimeResolver.resolveMediaType [] "notes.txt".toList = "text/plain".toList
      ∧ (importContainer (fun _ => "id0")
            ⟨[⟨"b0", "notes.txt".toList, MimeResolver.placeholder, []⟩], [("b0", [104])]⟩
            []).1
          = [("id0", ⟨"notes.txt".toList, Codec.encode "text/plain".toList [104], []⟩)] := by
  exact ⟨by decide, by decide, rfl⟩

end Archive
